import Mathlib

/-!
Shallow embedding of the motion-lite CSV ingestion pipeline
(`src/utils/parseCsv.ts`), the session builder (`buildTodaySessions`),
and the versioned persistence layer (`storage.ts` / `storageReducer.ts`),
with theorems checking the specification's claims against the code.

Strings are modelled as Lean `String` (a wrapper around `List Char`);
JavaScript semantics (`String.prototype.trim`, `parseInt`, regex
whitespace, `Array.prototype.sort`'s code-unit comparison) are embedded
as explicit executable functions below.
-/

namespace MotionLite

/-! ### JavaScript primitives -/

/-- The JS whitespace class: the characters matched by `\s` in a JS regex
and removed by `String.prototype.trim` (ASCII whitespace, NBSP, BOM,
Unicode space separators, line/paragraph separators). -/
def jsWs (c : Char) : Bool :=
  c = ' ' || c = '\t' || c = '\n' || c = '\r' ||
  c.toNat = 0xb || c.toNat = 0xc || c.toNat = 0xa0 || c.toNat = 0x1680 ||
  (0x2000 ≤ c.toNat && c.toNat ≤ 0x200a) ||
  c.toNat = 0x2028 || c.toNat = 0x2029 || c.toNat = 0x202f ||
  c.toNat = 0x205f || c.toNat = 0x3000 || c.toNat = 0xfeff

/-- Remove trailing whitespace from a character list (structurally). -/
def rstripWs : List Char → List Char
  | [] => []
  | c :: rest =>
    match rstripWs rest with
    | [] => if jsWs c then [] else [c]
    | r :: rs => c :: r :: rs

/-- JS `String.prototype.trim` on a character list. -/
def jsTrimChars (l : List Char) : List Char :=
  rstripWs (l.dropWhile jsWs)

/-- JS `String.prototype.trim`. -/
def jsTrim (s : String) : String :=
  String.mk (jsTrimChars s.data)

/-- JS default string comparison (`Array.prototype.sort` with no
comparator): lexicographic on code units. -/
def charListLe : List Char → List Char → Bool
  | [], _ => true
  | _ :: _, [] => false
  | a :: as, b :: bs => if a = b then charListLe as bs else decide (a < b)

def strLe (a b : String) : Bool := charListLe a.data b.data

/-! ### Tokenizer: `splitCsvLine` (parseCsv.ts lines 13-63)

The source walks the line with an index `i`, a `cur` accumulator, an
`out` array and an `inQuotes` flag; we embed the loop as structural
recursion on the remaining characters. -/

def splitCsvLineAux (delim : Char) : List Char → Bool → List Char → List (List Char) → List (List Char)
  | [], _, cur, out => out ++ [cur]
  | c :: c2 :: rest2, true, cur, out =>
    if c = '"' then
      -- peek next for escaped quote
      if c2 = '"' then splitCsvLineAux delim rest2 true (cur ++ ['"']) out
      else splitCsvLineAux delim (c2 :: rest2) false cur out
    else splitCsvLineAux delim (c2 :: rest2) true (cur ++ [c]) out
  | [c], true, cur, out =>
    if c = '"' then splitCsvLineAux delim [] false cur out
    else splitCsvLineAux delim [] true (cur ++ [c]) out
  | c :: rest, false, cur, out =>
    if c = '"' then splitCsvLineAux delim rest true cur out
    else if c = delim then splitCsvLineAux delim rest false [] (out ++ [cur])
    else if c = '\r' then splitCsvLineAux delim rest false cur out
    else splitCsvLineAux delim rest false (cur ++ [c]) out

def splitCsvLineChars (delim : Char) (line : List Char) : List (List Char) :=
  splitCsvLineAux delim line false [] []

/-- Embeds `splitCsvLine(line, delimiter)` from parseCsv.ts. -/
def splitCsvLine (line : String) (delim : Char) : List String :=
  (splitCsvLineChars delim line.data).map String.mk

/-! ### Header normalization: `normHeader` (parseCsv.ts lines 66-72) -/

/-- Replace every maximal run of characters satisfying `p` by a single
space: JS `replace(/X+/g, ' ')`.  The flag records whether the previous
character was part of a run. -/
def collapseRuns (p : Char → Bool) : List Char → Bool → List Char
  | [], _ => []
  | c :: rest, inRun =>
    if p c then
      if inRun then collapseRuns p rest true
      else ' ' :: collapseRuns p rest true
    else c :: collapseRuns p rest false

def dashUnderscore (c : Char) : Bool := c = '-' || c = '_'

/-- Embeds `normHeader`: trim, strip BOMs, collapse whitespace runs, map
dash/underscore runs to a space, strip colons, lowercase.
(`Char.toLower` models JS `toLowerCase` on the ASCII range.) -/
def normHeader (h : String) : String :=
  String.mk
    (((collapseRuns dashUnderscore
        (collapseRuns jsWs (((jsTrimChars h.data).filter (fun c => c.toNat ≠ 0xfeff))) false)
        false).filter (fun c => c ≠ ':')).map Char.toLower)

/-! ### Document splitting (parseCsv.ts lines 80-98) -/

/-- Embeds `text.split(/\n/)` on a character list; never returns `[]`. -/
def splitLF : List Char → List (List Char)
  | [] => [[]]
  | c :: rest =>
    if c = '\n' then [] :: splitLF rest
    else
      match splitLF rest with
      | [] => [[c]]
      | l :: ls => (c :: l) :: ls

/-- Embeds `replace` of a leading BOM: drop one leading byte-order-mark. -/
def stripLeadingBOM : List Char → List Char
  | [] => []
  | c :: rest => if c.toNat = 0xfeff then rest else c :: rest

/-- Embeds `replace` of a trailing CR: drop one trailing carriage return. -/
def dropCR (l : List Char) : List Char :=
  match l.reverse with
  | '\r' :: rest => rest.reverse
  | _ => l

/-! ### Header resolution (parseCsv.ts lines 100-138) -/

/-- The reverse index `headerIndexByNorm` is a JS `Map` filled with
`Map.set` in cell order, so for colliding normalized names the **last**
cell index wins; this folds the same way. -/
def lookupNorm (cells : List String) (key : String) : Option Nat :=
  (cells.enum).foldl (fun acc p => if normHeader p.2 = key then some p.1 else acc) none

/-- Embeds `findIndex(variants)`: first variant that resolves wins. -/
def findHeaderIndex (cells : List String) : List String → Option Nat
  | [] => none
  | v :: rest =>
    match lookupNorm cells (normHeader v) with
    | some i => some i
    | none => findHeaderIndex cells rest

/-- Resolved column indices for the ten canonical fields. -/
structure ColIdx where
  day : Option Nat
  exercise : Option Nat
  sets : Option Nat
  repsOrTime : Option Nat
  weight : Option Nat
  notes : Option Nat
  formGuidance : Option Nat
  muscleGroup : Option Nat
  mainMuscle : Option Nat
  dayType : Option Nat
deriving DecidableEq, Repr

/-- The `indexOf` record filled from `headerMap` (canonical name first, then the
declared alias variants, in order). -/
def resolveCols (cells : List String) : ColIdx where
  day := findHeaderIndex cells ["Day", "day", "date"]
  exercise := findHeaderIndex cells ["Exercise", "exercise", "workout", "name"]
  sets := findHeaderIndex cells ["Sets", "sets", "set"]
  repsOrTime := findHeaderIndex cells
    ["Reps or Time", "reps or time", "reps/time", "reps time", "time", "duration", "reps"]
  weight := findHeaderIndex cells ["Weight", "weight", "load", "kg", "lbs"]
  notes := findHeaderIndex cells ["Notes", "notes", "note", "comments"]
  formGuidance := findHeaderIndex cells
    ["Form Guidance", "form guidance", "form", "guidance", "cues", "form cues"]
  muscleGroup := findHeaderIndex cells ["Muscle Group", "muscle group", "muscle groups", "group"]
  mainMuscle := findHeaderIndex cells ["Main Muscle", "main muscle", "primary muscle", "target"]
  dayType := findHeaderIndex cells ["Day Type", "day type", "type"]

/-- Embeds `required.filter(k => indexOf[k] === undefined)` over the five
required canonical fields, in declaration order. -/
def missingRequired (cols : ColIdx) : List String :=
  (if cols.day = none then ["Day"] else []) ++
  (if cols.exercise = none then ["Exercise"] else []) ++
  (if cols.sets = none then ["Sets"] else []) ++
  (if cols.repsOrTime = none then ["Reps or Time"] else []) ++
  (if cols.weight = none then ["Weight"] else [])

/-! ### Row assembly and the parse loop (parseCsv.ts lines 149-201) -/

/-- One logical record, keyed by canonical field name (`CsvRow` in
App.tsx). -/
structure CsvRow where
  day : String
  exercise : String
  sets : String
  repsOrTime : String
  weight : String
  notes : String
  formGuidance : String
  muscleGroup : String
  mainMuscle : String
  dayType : String
deriving DecidableEq, Repr

/-- The safe accessor `get`: resolved in-range index or empty string. -/
def getCell (values : List String) : Option Nat → String
  | some i => values.getD i ""
  | none => ""

def buildRow (cols : ColIdx) (values : List String) : CsvRow where
  day := getCell values cols.day
  exercise := getCell values cols.exercise
  sets := getCell values cols.sets
  repsOrTime := getCell values cols.repsOrTime
  weight := getCell values cols.weight
  notes := getCell values cols.notes
  formGuidance := getCell values cols.formGuidance
  muscleGroup := getCell values cols.muscleGroup
  mainMuscle := getCell values cols.mainMuscle
  dayType := getCell values cols.dayType

/-- Required fields found empty on a row, in required order. -/
def missingInRow (row : CsvRow) : List String :=
  (if row.day = "" then ["Day"] else []) ++
  (if row.exercise = "" then ["Exercise"] else []) ++
  (if row.sets = "" then ["Sets"] else []) ++
  (if row.repsOrTime = "" then ["Reps or Time"] else []) ++
  (if row.weight = "" then ["Weight"] else [])

/-- The row diagnostic `` `Row ${lineNo + 1}: missing ${missingInRow.join(', ')}` ``. -/
def rowMsg (lineNo : Nat) (missing : List String) : String :=
  "Row " ++ toString (lineNo + 1) ++ ": missing " ++ String.intercalate ", " missing

/-- The document-level diagnostic for unresolved required headers. -/
def missingHeadersMsg (missing : List String) (cells : List String) : String :=
  "Missing required headers: " ++ String.intercalate ", " missing ++
    ". Found headers: " ++ String.intercalate " | " cells

/-- Embeds `splitCsvLine(raw.replace(CR, ''), delimiter).map(v => v.trim())`. -/
def lineValues (delim : Char) (raw : String) : List String :=
  (splitCsvLine (String.mk (dropCR raw.data)) delim).map jsTrim

/-- JS `Set.add`: insertion order, no duplicates. -/
def insertName (d : String) (names : List String) : List String :=
  if d ∈ names then names else names ++ [d]

/-- Loop accumulator: `rows`, the session-name `Set` (as its insertion
order), and `errors`. -/
structure Accum where
  rows : List CsvRow
  names : List String
  errors : List String
deriving DecidableEq, Repr

/-- The body of the data-row loop for line number `lineNo` (the index
into `rawLines`, so the first data line has `lineNo = 1`). -/
def processLine (cols : ColIdx) (delim : Char) (lineNo : Nat) (raw : String) (acc : Accum) : Accum :=
  if jsTrim raw = "" then acc
  else
    let row := buildRow cols (lineValues delim raw)
    if row.day = "" ∧ row.exercise = "" then acc
    else
      { rows := acc.rows ++ [row]
        names := if row.day ≠ "" then insertName row.day acc.names else acc.names
        errors :=
          if missingInRow row ≠ [] then acc.errors ++ [rowMsg lineNo (missingInRow row)]
          else acc.errors }

def processAll (cols : ColIdx) (delim : Char) : Nat → List String → Accum → Accum
  | _, [], acc => acc
  | n, l :: ls, acc => processAll cols delim (n + 1) ls (processLine cols delim n l acc)

/-- Insertion sort by the JS default comparison: `Array.from(set).sort()`
(a stable sort of a duplicate-free list, so any sorted arrangement is
the result). -/
def insertSorted (s : String) : List String → List String
  | [] => [s]
  | t :: rest => if strLe s t then s :: t :: rest else t :: insertSorted s rest

def sortStrings (l : List String) : List String := l.foldr insertSorted []

/-! ### `parseCsv` (parseCsv.ts lines 80-202) -/

structure ParseResult where
  rows : List CsvRow
  sessionNames : List String
  errors : List String
deriving DecidableEq, Repr

/-- BOM-stripped document text. -/
def docChars (csvText : String) : List Char := stripLeadingBOM csvText.data

/-- Embeds `rawLines = text.split(/\n/)`. -/
def rawLines (csvText : String) : List (List Char) := splitLF (docChars csvText)

/-- Embeds `headerLine = rawLines[0].replace(CR, '')`. -/
def headerLineOf (csvText : String) : List Char := dropCR ((rawLines csvText).headD [])

/-- Embeds `detectDelimiter`: tab if the header line has one, else comma. -/
def delimOf (csvText : String) : Char :=
  if '\t' ∈ headerLineOf csvText then '\t' else ','

/-- Embeds `headerCells = splitCsvLine(headerLine, delimiter).map(h => h.trim())`. -/
def headerCellsOf (csvText : String) : List String :=
  (splitCsvLineChars (delimOf csvText) (headerLineOf csvText)).map (fun l => jsTrim (String.mk l))

def colsOf (csvText : String) : ColIdx := resolveCols (headerCellsOf csvText)

/-- The data lines `rawLines[1..]`. -/
def dataLines (csvText : String) : List String :=
  ((rawLines csvText).tail).map String.mk

/-- Embeds `parseCsv(csvText)`. -/
def parseCsv (csvText : String) : ParseResult :=
  if jsTrim csvText = "" then
    { rows := [], sessionNames := [], errors := ["CSV is empty"] }
  else if (rawLines csvText).length < 2 then
    { rows := [], sessionNames := [],
      errors := ["CSV must have a header and at least one data row"] }
  else if missingRequired (colsOf csvText) ≠ [] then
    { rows := [], sessionNames := [],
      errors := [missingHeadersMsg (missingRequired (colsOf csvText)) (headerCellsOf csvText)] }
  else
    let acc := processAll (colsOf csvText) (delimOf csvText) 1 (dataLines csvText)
      { rows := [], names := [], errors := [] }
    { rows := acc.rows, sessionNames := sortStrings acc.names, errors := acc.errors }

/-! ### JS `parseInt` (default radix), used by `buildTodaySessions` -/

def decDigitsVal : List Char → Nat → Nat
  | [], acc => acc
  | c :: rest, acc => decDigitsVal rest (acc * 10 + (c.toNat - 48))

def isHexDigit (c : Char) : Bool :=
  c.isDigit || ('a' ≤ c && c ≤ 'f') || ('A' ≤ c && c ≤ 'F')

def hexDigitVal (c : Char) : Nat :=
  if c.isDigit then c.toNat - 48
  else if 'a' ≤ c && c ≤ 'f' then c.toNat - 87
  else c.toNat - 55

def hexDigitsVal : List Char → Nat → Nat
  | [], acc => acc
  | c :: rest, acc => hexDigitsVal rest (acc * 16 + hexDigitVal c)

/-- The longest digit prefix of the (sign-stripped) input, as a number;
`none` when there is no digit (JS `NaN`).  A `0x`/`0X` prefix switches
to radix 16, as JS `parseInt` does with no radix argument. -/
def numBodyVal (l : List Char) : Option Nat :=
  match l with
  | '0' :: 'x' :: rest =>
    if (rest.takeWhile isHexDigit) = [] then none
    else some (hexDigitsVal (rest.takeWhile isHexDigit) 0)
  | '0' :: 'X' :: rest =>
    if (rest.takeWhile isHexDigit) = [] then none
    else some (hexDigitsVal (rest.takeWhile isHexDigit) 0)
  | _ =>
    if (l.takeWhile Char.isDigit) = [] then none
    else some (decDigitsVal (l.takeWhile Char.isDigit) 0)

/-- JS `parseInt(s)`: skip leading whitespace, optional sign, longest
numeric prefix; `none` models `NaN`. -/
def jsParseInt (s : String) : Option Int :=
  match s.data.dropWhile jsWs with
  | '-' :: rest => (numBodyVal rest).map (fun n => -(n : Int))
  | '+' :: rest => (numBodyVal rest).map (fun n => (n : Int))
  | l => (numBodyVal l).map (fun n => (n : Int))

/-- Embeds `parseInt(row.Sets) || 1`: `NaN`, `0` and `-0` are falsy. -/
def setsValue (s : String) : Int :=
  match jsParseInt s with
  | none => 1
  | some n => if n = 0 then 1 else n

/-! ### Session builder: `buildTodaySessions` (todaySessions utility) -/

structure ExerciseVM where
  id : String
  sessionName : String
  name : String
  sets : Int
  repsText : String
  weightText : String
  notes : String
  formGuidance : String
  muscleGroup : String
  mainMuscle : String
deriving DecidableEq, Repr

structure Session where
  name : String
  exercises : List ExerciseVM
deriving DecidableEq, Repr

/-- The view model built from one retained row at position `index`
within its session (`sessionRows.map((row, index) => ...)`).
`row.X || ''` is the identity on the always-string row fields. -/
def buildExerciseVM (sessionName : String) (index : Nat) (row : CsvRow) : ExerciseVM where
  id := sessionName ++ "-" ++ row.exercise ++ "-" ++ toString index
  sessionName := sessionName
  name := row.exercise
  sets := setsValue row.sets
  repsText := row.repsOrTime
  weightText := row.weight
  notes := row.notes
  formGuidance := row.formGuidance
  muscleGroup := row.muscleGroup
  mainMuscle := row.mainMuscle

def buildTodaySessions (parsedRows : List CsvRow) (selectedSessions : List String) : List Session :=
  selectedSessions.map (fun sessionName =>
    { name := sessionName
      exercises := ((parsedRows.filter (fun row => row.day = sessionName)).enum).map
        (fun p => buildExerciseVM sessionName p.1 p.2) })

/-! ### Persistent store (storage.ts) and state actions (storageReducer.ts)

`GTState` is imported from `./types`, which is not part of the sources;
its shape is fixed by `DEFAULT_STATE` in storage.ts and spec §3
(the map-valued collections are modelled as association lists, which the
claims only ever compare for equality).  `localStorage` under the single
fixed key is modelled as `Option StoredDoc`; a `StoredDoc` is the parsed
JSON document, every field optional because JSON objects may lack keys
(`JSON.stringify` drops `undefined`-valued fields). -/

structure Countdown where
  remainingMs : Int
  initialMs : Int
  isRunning : Bool
deriving DecidableEq, Repr

structure Stopwatch where
  elapsedMs : Int
  isRunning : Bool
deriving DecidableEq, Repr

structure Timers where
  countdown : Countdown
  stopwatch : Stopwatch
deriving DecidableEq, Repr

structure CsvMeta where
  sessionsCount : Int
  uploadedAt : Int
deriving DecidableEq, Repr

/-- Per-exercise template override (spec §3: user-edited
sets/reps/weight/notes/form text). -/
structure TemplateOverride where
  sets : String
  reps : String
  weight : String
  notes : String
  form : String
deriving DecidableEq, Repr

structure GTState where
  panel : String
  csvText : Option String
  parsedRows : Option (List CsvRow)
  sessionNames : Option (List String)
  selectedSessions : List String
  currentSessionIndex : Int
  currentExerciseIndex : List (String × Int)
  checkedSets : List (String × List (String × List Bool))
  sessionTemplates : List (String × List (String × TemplateOverride))
  timers : Timers
  version : Int
  csvMeta : Option CsvMeta
  sessionCompletion : List (String × (Bool × Int))
deriving DecidableEq, Repr

def SCHEMA_VERSION : Int := 1

def DEFAULT_STATE : GTState where
  panel := "landing"
  csvText := none
  parsedRows := none
  sessionNames := none
  selectedSessions := []
  currentSessionIndex := 0
  currentExerciseIndex := []
  checkedSets := []
  sessionTemplates := []
  timers :=
    { countdown := { remainingMs := 0, initialMs := 0, isRunning := false }
      stopwatch := { elapsedMs := 0, isRunning := false } }
  version := SCHEMA_VERSION
  csvMeta := none
  sessionCompletion := []

/-- The stored JSON document: every field present-or-absent. -/
structure StoredDoc where
  panel : Option String
  csvText : Option String
  parsedRows : Option (List CsvRow)
  sessionNames : Option (List String)
  selectedSessions : Option (List String)
  currentSessionIndex : Option Int
  currentExerciseIndex : Option (List (String × Int))
  checkedSets : Option (List (String × List (String × List Bool)))
  sessionTemplates : Option (List (String × List (String × TemplateOverride)))
  timers : Option Timers
  version : Option Int
  csvMeta : Option CsvMeta
  sessionCompletion : Option (List (String × (Bool × Int)))
deriving DecidableEq, Repr

/-- Embeds `JSON.stringify(state)`: defined fields become present keys,
`undefined`-valued optional fields are dropped. -/
def serializeState (s : GTState) : StoredDoc where
  panel := some s.panel
  csvText := s.csvText
  parsedRows := s.parsedRows
  sessionNames := s.sessionNames
  selectedSessions := some s.selectedSessions
  currentSessionIndex := some s.currentSessionIndex
  currentExerciseIndex := some s.currentExerciseIndex
  checkedSets := some s.checkedSets
  sessionTemplates := some s.sessionTemplates
  timers := some s.timers
  version := some s.version
  csvMeta := s.csvMeta
  sessionCompletion := some s.sessionCompletion

/-- The shallow merge `{ ...DEFAULT_STATE, ...parsed }`: a key present in
the parsed document overrides the default. -/
def mergeDefaults (d : StoredDoc) : GTState where
  panel := d.panel.getD DEFAULT_STATE.panel
  csvText := d.csvText.or DEFAULT_STATE.csvText
  parsedRows := d.parsedRows.or DEFAULT_STATE.parsedRows
  sessionNames := d.sessionNames.or DEFAULT_STATE.sessionNames
  selectedSessions := d.selectedSessions.getD DEFAULT_STATE.selectedSessions
  currentSessionIndex := d.currentSessionIndex.getD DEFAULT_STATE.currentSessionIndex
  currentExerciseIndex := d.currentExerciseIndex.getD DEFAULT_STATE.currentExerciseIndex
  checkedSets := d.checkedSets.getD DEFAULT_STATE.checkedSets
  sessionTemplates := d.sessionTemplates.getD DEFAULT_STATE.sessionTemplates
  timers := d.timers.getD DEFAULT_STATE.timers
  version := d.version.getD DEFAULT_STATE.version
  csvMeta := d.csvMeta.or DEFAULT_STATE.csvMeta
  sessionCompletion := d.sessionCompletion.getD DEFAULT_STATE.sessionCompletion

/-- Embeds `clearAll()`: `localStorage.removeItem(STORAGE_KEY)`. -/
def clearAll (_store : Option StoredDoc) : Option StoredDoc := none

/-- Embeds `getState()`: absent → defaults; version mismatch → clear and
defaults; otherwise merge over defaults.  Returns the state together
with the (possibly cleared) storage. -/
def getState (store : Option StoredDoc) : GTState × Option StoredDoc :=
  match store with
  | none => (DEFAULT_STATE, none)
  | some d =>
    if d.version ≠ some SCHEMA_VERSION then (DEFAULT_STATE, clearAll store)
    else (mergeDefaults d, store)

/-- Embeds `setState(state)`: serialize and store the whole document. -/
def setState (s : GTState) (_store : Option StoredDoc) : Option StoredDoc :=
  some (serializeState s)

/-- Embeds `updateState(updates)`: read-modify-write, where the spread
`{ ...currentState, ...updates }` is the supplied update function. -/
def updateState (f : GTState → GTState) (store : Option StoredDoc) : Option StoredDoc :=
  let r := getState store
  setState (f r.1) r.2

/-- Embeds `storageActions.setCsvData(csvText, parsedRows, sessionNames)`:
replace the CSV payload and reset dependent selection/progress state. -/
def setCsvData (csvText : String) (parsedRows : List CsvRow) (sessionNames : List String)
    (store : Option StoredDoc) : Option StoredDoc :=
  updateState (fun s =>
    { s with
      csvText := some csvText
      parsedRows := some parsedRows
      sessionNames := some sessionNames
      selectedSessions := []
      currentSessionIndex := 0
      currentExerciseIndex := []
      checkedSets := [] }) store

/-! ### Derived notions used by the claims -/

/-- The non-empty `Day` values of a row sequence, in order. -/
def dayValues (rows : List CsvRow) : List String :=
  rows.filterMap (fun r => if r.day = "" then none else some r.day)

/-- Deduplication keeping first occurrences (the order a JS `Set`
accumulates distinct values). -/
def dedupFirst (l : List String) : List String :=
  l.foldl (fun ns d => insertName d ns) []

/-- Every canonical field of the row is fixed by JS `trim`. -/
def isTrimmedRow (row : CsvRow) : Prop :=
  jsTrim row.day = row.day ∧ jsTrim row.exercise = row.exercise ∧
  jsTrim row.sets = row.sets ∧ jsTrim row.repsOrTime = row.repsOrTime ∧
  jsTrim row.weight = row.weight ∧ jsTrim row.notes = row.notes ∧
  jsTrim row.formGuidance = row.formGuidance ∧ jsTrim row.muscleGroup = row.muscleGroup ∧
  jsTrim row.mainMuscle = row.mainMuscle ∧ jsTrim row.dayType = row.dayType

/-- The `i`-th data line of the document (0-based; the line at index
`i + 1` of `rawLines`). -/
def dataLineAt (t : String) (i : Nat) : String := (dataLines t).getD i ""

/-- The row the importer builds from the `i`-th data line. -/
def rowAt (t : String) (i : Nat) : CsvRow :=
  buildRow (colsOf t) (lineValues (delimOf t) (dataLineAt t i))

/-! ### CSV writing, for the tokenizer round-trip claim.

The joining side is the construction described by the specification:
wrap a field containing the delimiter or a quote in double quotes,
doubling internal quotes, and join with the delimiter. -/

def escapeQuotes : List Char → List Char
  | [] => []
  | c :: rest => if c = '"' then '"' :: '"' :: escapeQuotes rest else c :: escapeQuotes rest

def needsQuote (delim : Char) (f : List Char) : Bool :=
  f.contains delim || f.contains '"'

def encodeField (delim : Char) (f : List Char) : List Char :=
  if needsQuote delim f then '"' :: (escapeQuotes f ++ ['"']) else f

def joinFields (delim : Char) : List (List Char) → List Char
  | [] => []
  | [f] => encodeField delim f
  | f :: fs => encodeField delim f ++ delim :: joinFields delim fs

/-- True when the list starts with a double quote. -/
def headQuote : List Char → Bool
  | [] => false
  | c :: _ => c = '"'

/-! ### Concrete documents used by witnesses and counterexamples -/

def mkRow (d e s r w : String) : CsvRow :=
  { day := d, exercise := e, sets := s, repsOrTime := r, weight := w,
    notes := "", formGuidance := "", muscleGroup := "", mainMuscle := "", dayType := "" }

/-- Spec §8, concrete scenario A. -/
def scenarioA : String :=
  "Day,Exercise,Sets,Reps or Time,Weight\nDay 1,Push-ups,3,12,Bodyweight\nDay 1,Plank,3,60s,\nDay 2,Squats,4,10,40kg"

def scenarioAResult : ParseResult where
  rows :=
    [mkRow "Day 1" "Push-ups" "3" "12" "Bodyweight",
     mkRow "Day 1" "Plank" "3" "60s" "",
     mkRow "Day 2" "Squats" "4" "10" "40kg"]
  sessionNames := ["Day 1", "Day 2"]
  errors := ["Row 3: missing Weight"]

/-- A document whose header resolves none of the required fields. -/
def c1Doc : String := "Foo,Bar\nx,y"

/-- A valid document using alias headers, with unsorted days. -/
def c2Doc : String := "day,workout,set,duration,load\nDay 2,A,1,1,1\nDay 1,B,1,1,1"

/-- A valid header followed by nothing but a trailing newline. -/
def c10Doc : String := "Day,Exercise,Sets,Reps or Time,Weight\n"

/-- A row whose `Sets` cell parses to a negative integer. -/
def negSetsRow : CsvRow := mkRow "Day 1" "Squat" "-3" "5" "100"

def negSetsVM : ExerciseVM := buildExerciseVM "Day 1" 0 negSetsRow

def negSetsSession : Session := { name := "Day 1", exercises := [negSetsVM] }

/-- A stored document carrying an incompatible schema version. -/
def mismatchDoc : StoredDoc := { serializeState DEFAULT_STATE with version := some 0 }

/-! ## Sanity checks of the embedding on concrete inputs -/

example : splitCsvLine "a,b" ',' = ["a", "b"] := by decide
example : splitCsvLine "\"Squats, Barbell\",x" ',' = ["Squats, Barbell", "x"] := by decide
example : splitCsvLine "\"a\"\"b\"" ',' = ["a\"b"] := by decide
example : splitCsvLine "" ',' = [""] := by decide
example : normHeader "  Reps_or-Time: " = "reps or time" := by decide
example : splitLF "a\nb\n".data = ["a".data, "b".data, "".data] := by decide
example : dropCR "ab\r".data = "ab".data := by decide
example : setsValue "3" = 3 := by decide
example : setsValue "" = 1 := by decide
example : setsValue "0" = 1 := by decide
example : setsValue "-3" = -3 := by decide
example : setsValue " 12x" = 12 := by decide

/-! ## Helper lemmas: persistence layer -/

/-- Reading back a serialized snapshot merges to the snapshot itself:
required fields are present, and optional fields share the default
`undefined`. -/
theorem mergeDefaults_serializeState (s : GTState) : mergeDefaults (serializeState s) = s := by
  cases s
  simp [mergeDefaults, serializeState, DEFAULT_STATE]

/-- Reading state always reports the current schema version. -/
theorem getState_fst_version (store : Option StoredDoc) :
    (getState store).1.version = SCHEMA_VERSION := by
  match store with
  | none => rfl
  | some d =>
    by_cases h : d.version = some SCHEMA_VERSION
    · simp [getState, h, mergeDefaults]
    · simp [getState, h, DEFAULT_STATE]

/-! ## C6: version mismatch clears storage and yields defaults -/

/-- C6: for a stored document whose version differs from the current
schema version, `getState` clears the underlying storage and returns the
default document; a subsequent read after the clear also returns
defaults, and clearing is idempotent. -/
theorem getState_version_mismatch (d : StoredDoc) (s : Option StoredDoc)
    (h : d.version ≠ some SCHEMA_VERSION) :
    getState (some d) = (DEFAULT_STATE, none) ∧
    getState ((getState (some d)).2) = (DEFAULT_STATE, none) ∧
    clearAll (clearAll s) = clearAll s := by
  refine ⟨?_, ?_, rfl⟩ <;> simp [getState, clearAll, h]

/-- Witness for C6 at a concrete mismatching document. -/
theorem getState_version_mismatch_witness :
    mismatchDoc.version ≠ some SCHEMA_VERSION ∧
    (getState (some mismatchDoc) = (DEFAULT_STATE, none) ∧
     getState ((getState (some mismatchDoc)).2) = (DEFAULT_STATE, none) ∧
     clearAll (clearAll (some mismatchDoc)) = clearAll (some mismatchDoc)) :=
  ⟨by decide, getState_version_mismatch mismatchDoc (some mismatchDoc) (by decide)⟩

/-! ## C7: write-read round trip at the current version -/

/-- C7: a snapshot written with `setState` at the current schema version
and read back with `getState` (no intervening mutation) returns the
written snapshot after shallow-merging it over the defaults — which is
the snapshot itself. -/
theorem setState_getState_roundtrip (s : GTState) (store : Option StoredDoc)
    (h : s.version = SCHEMA_VERSION) :
    (getState (setState s store)).1 = mergeDefaults (serializeState s) ∧
    mergeDefaults (serializeState s) = s := by
  refine ⟨?_, mergeDefaults_serializeState s⟩
  simp [getState, setState, serializeState, h]

/-- Witness for C7 at the default snapshot. -/
theorem setState_getState_roundtrip_witness :
    DEFAULT_STATE.version = SCHEMA_VERSION ∧
    ((getState (setState DEFAULT_STATE none)).1 = mergeDefaults (serializeState DEFAULT_STATE) ∧
     mergeDefaults (serializeState DEFAULT_STATE) = DEFAULT_STATE) :=
  ⟨rfl, setState_getState_roundtrip DEFAULT_STATE none rfl⟩

/-! ## C8: setCsvData replaces the payload, resets dependents, frames the rest -/

/-- C8: after `setCsvData`, the stored document carries the new
`csvText`, `parsedRows` and `sessionNames`, the dependent selection and
progress state is reset, and every other field is unchanged from the
prior state. -/
theorem setCsvData_frame (t : String) (rows : List CsvRow) (names : List String)
    (store : Option StoredDoc) :
    (getState (setCsvData t rows names store)).1.csvText = some t ∧
    (getState (setCsvData t rows names store)).1.parsedRows = some rows ∧
    (getState (setCsvData t rows names store)).1.sessionNames = some names ∧
    (getState (setCsvData t rows names store)).1.selectedSessions = [] ∧
    (getState (setCsvData t rows names store)).1.currentSessionIndex = 0 ∧
    (getState (setCsvData t rows names store)).1.currentExerciseIndex = [] ∧
    (getState (setCsvData t rows names store)).1.checkedSets = [] ∧
    (getState (setCsvData t rows names store)).1.panel = (getState store).1.panel ∧
    (getState (setCsvData t rows names store)).1.sessionTemplates
      = (getState store).1.sessionTemplates ∧
    (getState (setCsvData t rows names store)).1.timers = (getState store).1.timers ∧
    (getState (setCsvData t rows names store)).1.version = (getState store).1.version ∧
    (getState (setCsvData t rows names store)).1.csvMeta = (getState store).1.csvMeta ∧
    (getState (setCsvData t rows names store)).1.sessionCompletion
      = (getState store).1.sessionCompletion := by
  have hv : (getState store).1.version = SCHEMA_VERSION := getState_fst_version store
  have hnext : (getState (setCsvData t rows names store)).1
      = { (getState store).1 with
          csvText := some t, parsedRows := some rows, sessionNames := some names,
          selectedSessions := [], currentSessionIndex := 0,
          currentExerciseIndex := [], checkedSets := [] } := by
    show (getState (some (serializeState _))).1 = _
    rw [getState]
    rw [if_neg (by simp [serializeState, hv])]
    exact mergeDefaults_serializeState _
  rw [hnext]
  exact ⟨rfl, rfl, rfl, rfl, rfl, rfl, rfl, rfl, rfl, rfl, rfl, rfl, rfl⟩

/-! ## C5: sets parsing in the session builder (corrected) -/

/-- C5 counterexample: a `Sets` cell of `"-3"` produces a negative
`sets` value, refuting "the resulting sets value is never 0 or
negative". -/
theorem buildTodaySessions_negative_sets :
    (buildTodaySessions [negSetsRow] ["Day 1"]).map (fun s => s.exercises.map (fun e => e.sets))
      = [[-3]] ∧ (-3 : Int) < 0 := by
  refine ⟨by decide, by decide⟩

/-- The second component of an `enumFrom` entry is a list element. -/
theorem snd_mem_of_mem_enumFrom {α : Type} :
    ∀ (l : List α) (n : Nat) (p : Nat × α), p ∈ l.enumFrom n → p.2 ∈ l := by
  intro l
  induction l with
  | nil => intro n p hp; simp [List.enumFrom] at hp
  | cons a l ih =>
    intro n p hp
    rw [List.enumFrom] at hp
    rcases List.mem_cons.1 hp with h | h
    · simp [h]
    · exact List.mem_cons_of_mem _ (ih (n + 1) p h)

/-- The value `parseInt(s) || 1` is never `0`: a zero (or `NaN`) parse is falsy
and replaced by `1`. -/
theorem setsValue_ne_zero (s : String) : setsValue s ≠ 0 := by
  unfold setsValue
  cases h : jsParseInt s with
  | none => simp
  | some n =>
    by_cases hn : n = 0 <;> simp [hn]

/-- C5 (amended): every produced `sets` value is `parseInt` of the
row's `Sets` string when that parse is nonzero, and `1` when the parse
is zero, non-numeric or missing; the value is never `0`, but a negative
parse is kept. -/
theorem buildTodaySessions_sets_spec (rows : List CsvRow) (sel : List String)
    (s : Session) (hs : s ∈ buildTodaySessions rows sel)
    (vm : ExerciseVM) (hvm : vm ∈ s.exercises) :
    (∃ row, row ∈ rows ∧ row.day = s.name ∧
      vm.sets = (match jsParseInt row.sets with
                 | none => 1
                 | some n => if n = 0 then 1 else n)) ∧
    vm.sets ≠ 0 := by
  obtain ⟨name, hname, hsession⟩ := List.mem_map.1 hs
  subst hsession
  obtain ⟨p, hp, hvmeq⟩ := List.mem_map.1 hvm
  have hrowmem : p.2 ∈ rows.filter (fun row => row.day = name) := by
    exact snd_mem_of_mem_enumFrom _ 0 p hp
  have hrow : p.2 ∈ rows ∧ p.2.day = name := by
    have h := List.mem_filter.1 hrowmem
    exact ⟨h.1, by simpa using h.2⟩
  refine ⟨⟨p.2, hrow.1, hrow.2, ?_⟩, ?_⟩
  · rw [← hvmeq]
    rfl
  · rw [← hvmeq]
    exact setsValue_ne_zero p.2.sets

/-- Witness for the amended C5 at the concrete negative-sets row. -/
theorem buildTodaySessions_sets_spec_witness :
    ((∃ row, row ∈ [negSetsRow] ∧ row.day = negSetsSession.name ∧
      negSetsVM.sets = (match jsParseInt row.sets with
                        | none => 1
                        | some n => if n = 0 then 1 else n)) ∧
     negSetsVM.sets ≠ 0) :=
  buildTodaySessions_sets_spec [negSetsRow] ["Day 1"] negSetsSession (by decide)
    negSetsVM (by decide)

/-! ## C1: unresolved required headers abort the import -/

/-- C1: when the emptiness and line-count guards pass but at least one
required canonical header fails to resolve via the alias table,
`parseCsv` returns exactly one diagnostic — the document-level
missing-headers message naming the missing fields and echoing the
detected header cells — with an empty row sequence and an empty
session-name list, regardless of the data lines. -/
theorem parseCsv_missing_required_headers (t : String)
    (h1 : jsTrim t ≠ "")
    (h2 : ¬(rawLines t).length < 2)
    (h3 : missingRequired (colsOf t) ≠ []) :
    parseCsv t =
      { rows := [], sessionNames := [],
        errors := [missingHeadersMsg (missingRequired (colsOf t)) (headerCellsOf t)] } ∧
    (parseCsv t).errors.length = 1 := by
  have hp : parseCsv t =
      { rows := [], sessionNames := [],
        errors := [missingHeadersMsg (missingRequired (colsOf t)) (headerCellsOf t)] } := by
    unfold parseCsv
    rw [if_neg h1, if_neg h2, if_pos h3]
  exact ⟨hp, by rw [hp]; rfl⟩

/-- Witness for C1 at a two-line document with unknown headers. -/
theorem parseCsv_missing_required_headers_witness :
    jsTrim c1Doc ≠ "" ∧ ¬(rawLines c1Doc).length < 2 ∧
    missingRequired (colsOf c1Doc) ≠ [] ∧
    (parseCsv c1Doc =
      { rows := [], sessionNames := [],
        errors := [missingHeadersMsg (missingRequired (colsOf c1Doc)) (headerCellsOf c1Doc)] } ∧
     (parseCsv c1Doc).errors.length = 1) :=
  ⟨by decide, by decide, by decide,
   parseCsv_missing_required_headers c1Doc (by decide) (by decide) (by decide)⟩

/-! ## Helper lemmas: the data-row loop -/

theorem dayValues_cons (r : CsvRow) (rows : List CsvRow) :
    dayValues (r :: rows) = dayValues [r] ++ dayValues rows := by
  by_cases h : r.day = "" <;> simp [dayValues, List.filterMap_cons, h]

/-- One loop step either drops the line or admits exactly the row built
from it, extending the name set with its `Day` value and the error list
with at most one row diagnostic. -/
theorem processLine_cases (cols : ColIdx) (delim : Char) (n : Nat) (raw : String) (acc : Accum) :
    processLine cols delim n raw acc = acc ∨
    ∃ E, processLine cols delim n raw acc =
        { rows := acc.rows ++ [buildRow cols (lineValues delim raw)]
          names := (dayValues [buildRow cols (lineValues delim raw)]).foldl
            (fun ns d => insertName d ns) acc.names
          errors := acc.errors ++ E } ∧
      ∀ e ∈ E, ∃ k m, e = rowMsg k m := by
  unfold processLine
  by_cases hb : jsTrim raw = ""
  · left; rw [if_pos hb]
  · rw [if_neg hb]
    by_cases hd : (buildRow cols (lineValues delim raw)).day = ""
        ∧ (buildRow cols (lineValues delim raw)).exercise = ""
    · left; rw [if_pos hd]
    · right
      rw [if_neg hd]
      refine ⟨if missingInRow (buildRow cols (lineValues delim raw)) ≠ []
          then [rowMsg n (missingInRow (buildRow cols (lineValues delim raw)))] else [],
        ?_, ?_⟩
      · simp only [Accum.mk.injEq]
        refine ⟨trivial, ?_, ?_⟩
        · by_cases hday : (buildRow cols (lineValues delim raw)).day = ""
          · simp [dayValues, hday]
          · simp [dayValues, hday]
        · by_cases hm : missingInRow (buildRow cols (lineValues delim raw)) = []
          · simp [hm]
          · simp [hm]
      · intro e he
        by_cases hm : missingInRow (buildRow cols (lineValues delim raw)) = []
        · simp [hm] at he
        · simp [hm] at he
          exact ⟨n, missingInRow (buildRow cols (lineValues delim raw)), he⟩

/-- The shape of the loop's result: rows are appended in order, the
name set accumulates the admitted non-empty `Day` values, errors grow
by row diagnostics only, and every new row was built from some line. -/
theorem processAll_shape (cols : ColIdx) (delim : Char) :
    ∀ (ls : List String) (n : Nat) (acc : Accum),
    ∃ newRows newErrs,
      processAll cols delim n ls acc =
        { rows := acc.rows ++ newRows
          names := (dayValues newRows).foldl (fun ns d => insertName d ns) acc.names
          errors := acc.errors ++ newErrs } ∧
      (∀ e ∈ newErrs, ∃ k m, e = rowMsg k m) ∧
      (∀ row ∈ newRows, ∃ raw, row = buildRow cols (lineValues delim raw)) := by
  intro ls
  induction ls with
  | nil =>
    intro n acc
    refine ⟨[], [], ?_, by simp, by simp⟩
    simp [processAll, dayValues]
  | cons l ls ih =>
    intro n acc
    rcases processLine_cases cols delim n l acc with h | ⟨E, hEq, hE⟩
    · obtain ⟨nr, ne, h1, h2, h3⟩ := ih (n + 1) (processLine cols delim n l acc)
      refine ⟨nr, ne, ?_, h2, h3⟩
      show processAll cols delim (n + 1) ls (processLine cols delim n l acc) = _
      rw [h] at h1 ⊢
      exact h1
    · obtain ⟨nr, ne, h1, h2, h3⟩ := ih (n + 1) (processLine cols delim n l acc)
      refine ⟨buildRow cols (lineValues delim l) :: nr, E ++ ne, ?_, ?_, ?_⟩
      · show processAll cols delim (n + 1) ls (processLine cols delim n l acc) = _
        rw [hEq] at h1 ⊢
        rw [h1]
        simp only [Accum.mk.injEq]
        refine ⟨by simp, ?_, by simp⟩
        rw [dayValues_cons (buildRow cols (lineValues delim l)) nr, List.foldl_append]
      · intro e he
        rcases List.mem_append.1 he with h | h
        · exact hE e h
        · exact h2 e h
      · intro row hrow
        rcases List.mem_cons.1 hrow with h | h
        · exact ⟨l, h⟩
        · exact h3 row h

/-- Splitting the loop at a line boundary. -/
theorem processAll_append (cols : ColIdx) (delim : Char) :
    ∀ (l1 l2 : List String) (n : Nat) (acc : Accum),
    processAll cols delim n (l1 ++ l2) acc =
      processAll cols delim (n + l1.length) l2 (processAll cols delim n l1 acc) := by
  intro l1
  induction l1 with
  | nil => intro l2 n acc; simp [processAll]
  | cons x l1 ih =>
    intro l2 n acc
    show processAll cols delim (n + 1) (l1 ++ l2) (processLine cols delim n x acc) = _
    rw [ih]
    show _ = processAll cols delim (n + (l1.length + 1)) l2
      (processAll cols delim (n + 1) l1 (processLine cols delim n x acc))
    congr 1
    omega

/-- Blank or whitespace-only lines leave the accumulator untouched. -/
theorem processAll_blank (cols : ColIdx) (delim : Char) :
    ∀ (ls : List String) (n : Nat) (acc : Accum),
    (∀ raw ∈ ls, jsTrim raw = "") → processAll cols delim n ls acc = acc := by
  intro ls
  induction ls with
  | nil => intro n acc _; rfl
  | cons l ls ih =>
    intro n acc h
    show processAll cols delim (n + 1) ls (processLine cols delim n l acc) = acc
    have hl : processLine cols delim n l acc = acc := by
      unfold processLine
      rw [if_pos (h l (List.mem_cons_self l ls))]
    rw [hl]
    exact ih (n + 1) acc (fun raw hr => h raw (List.mem_cons_of_mem l hr))

/-! ## Helper lemmas: the JS sort order and the session-name set -/

theorem charListLe_total : ∀ a b : List Char, charListLe a b = true ∨ charListLe b a = true := by
  intro a
  induction a with
  | nil => intro b; left; rfl
  | cons x xs ih =>
    intro b
    cases b with
    | nil => right; rfl
    | cons y ys =>
      by_cases h : x = y
      · subst h
        rcases ih ys with h | h
        · left; simpa [charListLe] using h
        · right; simpa [charListLe] using h
      · rcases lt_or_gt_of_ne h with hlt | hgt
        · left; simp [charListLe, h, hlt]
        · right; simp [charListLe, Ne.symm h, hgt, not_lt_of_gt hgt]

theorem charListLe_trans :
    ∀ a b c : List Char, charListLe a b = true → charListLe b c = true → charListLe a c = true := by
  intro a
  induction a with
  | nil => intro b c _ _; rfl
  | cons x xs ih =>
    intro b c hab hbc
    cases b with
    | nil => simp [charListLe] at hab
    | cons y ys =>
      cases c with
      | nil => simp [charListLe] at hbc
      | cons z zs =>
        by_cases hxy : x = y <;> by_cases hyz : y = z
        · subst hxy; subst hyz
          simp only [charListLe, if_pos rfl] at hab hbc ⊢
          exact ih ys zs hab hbc
        · subst hxy
          simp only [charListLe, if_pos rfl] at hab
          simpa [charListLe, hyz] using hbc
        · subst hyz
          simp only [charListLe, if_pos rfl] at hbc
          simpa [charListLe, hxy] using hab
        · simp only [charListLe, if_neg hxy, decide_eq_true_eq] at hab
          simp only [charListLe, if_neg hyz, decide_eq_true_eq] at hbc
          have hxz : x < z := lt_trans hab hbc
          simp [charListLe, ne_of_lt hxz, hxz]

theorem charListLe_antisymm :
    ∀ a b : List Char, charListLe a b = true → charListLe b a = true → a = b := by
  intro a
  induction a with
  | nil =>
    intro b _ hba
    cases b with
    | nil => rfl
    | cons y ys => simp [charListLe] at hba
  | cons x xs ih =>
    intro b hab hba
    cases b with
    | nil => simp [charListLe] at hab
    | cons y ys =>
      by_cases h : x = y
      · subst h
        simp only [charListLe, if_pos rfl] at hab hba
        rw [ih ys hab hba]
      · simp only [charListLe, if_neg h, decide_eq_true_eq] at hab
        simp only [charListLe, if_neg (Ne.symm h), decide_eq_true_eq] at hba
        exact absurd hba (lt_asymm hab)

theorem strLe_total (a b : String) : strLe a b = true ∨ strLe b a = true :=
  charListLe_total a.data b.data

theorem strLe_trans {a b c : String} (h1 : strLe a b = true) (h2 : strLe b c = true) :
    strLe a c = true :=
  charListLe_trans a.data b.data c.data h1 h2

theorem insertSorted_perm (s : String) : ∀ l : List String, (insertSorted s l).Perm (s :: l) := by
  intro l
  induction l with
  | nil => rfl
  | cons t rest ih =>
    by_cases h : strLe s t = true
    · simp [insertSorted, h]
    · simp only [insertSorted, if_neg h]
      exact (List.Perm.cons t ih).trans (List.Perm.swap s t rest)

theorem mem_insertSorted {x s : String} {l : List String} (h : x ∈ insertSorted s l) :
    x = s ∨ x ∈ l := by
  have := (insertSorted_perm s l).mem_iff.1 h
  simpa using this

theorem insertSorted_pairwise (s : String) :
    ∀ l : List String, l.Pairwise (fun a b => strLe a b = true) →
    (insertSorted s l).Pairwise (fun a b => strLe a b = true) := by
  intro l
  induction l with
  | nil => intro _; simp [insertSorted]
  | cons t rest ih =>
    intro h
    rcases List.pairwise_cons.1 h with ⟨ht, hrest⟩
    by_cases hst : strLe s t = true
    · simp only [insertSorted, if_pos hst]
      refine List.pairwise_cons.2 ⟨?_, h⟩
      intro x hx
      rcases List.mem_cons.1 hx with rfl | hx
      · exact hst
      · exact strLe_trans hst (ht x hx)
    · simp only [insertSorted, if_neg hst]
      refine List.pairwise_cons.2 ⟨?_, ih hrest⟩
      intro x hx
      rcases mem_insertSorted hx with rfl | hx
      · rcases strLe_total x t with h | h
        · exact absurd h hst
        · exact h
      · exact ht x hx

theorem sortStrings_perm : ∀ l : List String, (sortStrings l).Perm l := by
  intro l
  induction l with
  | nil => rfl
  | cons x l ih =>
    show (insertSorted x (sortStrings l)).Perm (x :: l)
    exact (insertSorted_perm x (sortStrings l)).trans (List.Perm.cons x ih)

theorem sortStrings_pairwise (l : List String) :
    (sortStrings l).Pairwise (fun a b => strLe a b = true) := by
  induction l with
  | nil => simp [sortStrings]
  | cons x l ih => exact insertSorted_pairwise x (sortStrings l) ih

theorem mem_foldl_insertName :
    ∀ (l : List String) (acc : List String) (x : String),
    x ∈ l.foldl (fun ns d => insertName d ns) acc → x ∈ acc ∨ x ∈ l := by
  intro l
  induction l with
  | nil => intro acc x h; exact Or.inl h
  | cons d l ih =>
    intro acc x h
    rcases ih (insertName d acc) x h with h | h
    · unfold insertName at h
      by_cases hd : d ∈ acc
      · rw [if_pos hd] at h; exact Or.inl h
      · rw [if_neg hd] at h
        rcases List.mem_append.1 h with h | h
        · exact Or.inl h
        · right; simp at h; simp [h]
    · right; exact List.mem_cons_of_mem d h

theorem foldl_insertName_nodup :
    ∀ (l : List String) (acc : List String), acc.Nodup →
    (l.foldl (fun ns d => insertName d ns) acc).Nodup := by
  intro l
  induction l with
  | nil => intro acc h; exact h
  | cons d l ih =>
    intro acc h
    apply ih
    unfold insertName
    show (if d ∈ acc then acc else acc ++ [d]).Nodup
    by_cases hd : d ∈ acc
    · rw [if_pos hd]; exact h
    · rw [if_neg hd]
      have : (acc ++ [d]).Nodup := by
        rw [List.nodup_append]
        refine ⟨h, List.nodup_singleton d, ?_⟩
        intro a ha hab
        simp only [List.mem_singleton] at hab
        exact hd (hab ▸ ha)
      exact this

theorem dedupFirst_nodup (l : List String) : (dedupFirst l).Nodup :=
  foldl_insertName_nodup l [] List.nodup_nil

/-! ## C2: resolved headers give no document diagnostic and sorted distinct session names -/

/-- C2: when all five required headers resolve (any alias form), every
diagnostic is a row-level one (no document-level diagnostic), and the
session-name list is the deduplicated, sorted (JS default string
ordering) list of non-empty `Day` values of the admitted rows — indeed
it is duplicate-free and sorted. -/
theorem parseCsv_session_names (t : String)
    (h1 : jsTrim t ≠ "") (h2 : ¬(rawLines t).length < 2)
    (h3 : missingRequired (colsOf t) = []) :
    (∀ e ∈ (parseCsv t).errors, ∃ k m, e = rowMsg k m) ∧
    (parseCsv t).sessionNames = sortStrings (dedupFirst (dayValues (parseCsv t).rows)) ∧
    (parseCsv t).sessionNames.Pairwise (fun a b => strLe a b = true) ∧
    (parseCsv t).sessionNames.Nodup := by
  have h3' : ¬missingRequired (colsOf t) ≠ [] := by simpa using h3
  obtain ⟨nr, ne, hshape, herr, -⟩ :=
    processAll_shape (colsOf t) (delimOf t) (dataLines t) 1 { rows := [], names := [], errors := [] }
  have hp : parseCsv t =
      { rows := nr, sessionNames := sortStrings (dedupFirst (dayValues nr)), errors := ne } := by
    unfold parseCsv
    rw [if_neg h1, if_neg h2, if_neg h3']
    show ({ rows := (processAll (colsOf t) (delimOf t) 1 (dataLines t)
              { rows := [], names := [], errors := [] }).rows,
            sessionNames := sortStrings (processAll (colsOf t) (delimOf t) 1 (dataLines t)
              { rows := [], names := [], errors := [] }).names,
            errors := (processAll (colsOf t) (delimOf t) 1 (dataLines t)
              { rows := [], names := [], errors := [] }).errors } : ParseResult)
      = { rows := nr, sessionNames := sortStrings (dedupFirst (dayValues nr)), errors := ne }
    rw [hshape]
    simp [dedupFirst]
  refine ⟨?_, ?_, ?_, ?_⟩
  · rw [hp]; exact herr
  · rw [hp]
  · rw [hp]; exact sortStrings_pairwise _
  · rw [hp]
    exact ((sortStrings_perm _).nodup_iff).2 (dedupFirst_nodup _)

/-- Witness for C2 at an alias-headed document with unsorted days. -/
theorem parseCsv_session_names_witness :
    jsTrim c2Doc ≠ "" ∧ ¬(rawLines c2Doc).length < 2 ∧ missingRequired (colsOf c2Doc) = [] ∧
    ((∀ e ∈ (parseCsv c2Doc).errors, ∃ k m, e = rowMsg k m) ∧
     (parseCsv c2Doc).sessionNames = sortStrings (dedupFirst (dayValues (parseCsv c2Doc).rows)) ∧
     (parseCsv c2Doc).sessionNames.Pairwise (fun a b => strLe a b = true) ∧
     (parseCsv c2Doc).sessionNames.Nodup) :=
  ⟨by decide, by decide, by decide,
   parseCsv_session_names c2Doc (by decide) (by decide) (by decide)⟩

/-! ## C4: row-level diagnostics keep the row -/

/-- When all guards pass, `parseCsv` is the loop's result with sorted
names. -/
theorem parseCsv_eq_processAll (t : String)
    (h1 : jsTrim t ≠ "") (h2 : ¬(rawLines t).length < 2)
    (h3 : missingRequired (colsOf t) = []) :
    parseCsv t =
      { rows := (processAll (colsOf t) (delimOf t) 1 (dataLines t)
          { rows := [], names := [], errors := [] }).rows,
        sessionNames := sortStrings (processAll (colsOf t) (delimOf t) 1 (dataLines t)
          { rows := [], names := [], errors := [] }).names,
        errors := (processAll (colsOf t) (delimOf t) 1 (dataLines t)
          { rows := [], names := [], errors := [] }).errors } := by
  have h3' : ¬missingRequired (colsOf t) ≠ [] := by simpa using h3
  unfold parseCsv
  rw [if_neg h1, if_neg h2, if_neg h3']

/-- C4: an admitted data row with empty required fields adds the
diagnostic `"Row N: missing <fields>"` (N counting the header line, so
the first data line is row 2) while the row is still emitted; and
concretely, scenario A yields exactly `"Row 3: missing Weight"` with
three rows. -/
theorem parseCsv_row_level_diagnostics (t : String) (i : Nat)
    (h1 : jsTrim t ≠ "") (h2 : ¬(rawLines t).length < 2)
    (h3 : missingRequired (colsOf t) = [])
    (hi : i < (dataLines t).length)
    (hblank : jsTrim (dataLineAt t i) ≠ "")
    (hkept : ¬((rowAt t i).day = "" ∧ (rowAt t i).exercise = ""))
    (hmiss : missingInRow (rowAt t i) ≠ []) :
    rowMsg (1 + i) (missingInRow (rowAt t i)) ∈ (parseCsv t).errors ∧
    rowAt t i ∈ (parseCsv t).rows ∧
    parseCsv scenarioA = scenarioAResult := by
  have hdec : dataLines t = (dataLines t).take i ++ dataLineAt t i :: (dataLines t).drop (i + 1) := by
    conv_lhs => rw [← List.take_append_drop i (dataLines t)]
    congr 1
    rw [List.drop_eq_getElem_cons hi]
    congr 1
    exact (List.getD_eq_getElem _ _ hi).symm
  have hlen : ((dataLines t).take i).length = i := by
    rw [List.length_take]; omega
  have hsplit : processAll (colsOf t) (delimOf t) 1 (dataLines t)
        { rows := [], names := [], errors := [] }
      = processAll (colsOf t) (delimOf t) (1 + i)
        (dataLineAt t i :: (dataLines t).drop (i + 1))
        (processAll (colsOf t) (delimOf t) 1 ((dataLines t).take i)
          { rows := [], names := [], errors := [] }) := by
    conv_lhs => rw [hdec]
    rw [processAll_append, hlen]
  set mid := processAll (colsOf t) (delimOf t) 1 ((dataLines t).take i)
    { rows := [], names := [], errors := [] } with hmid
  have hline : processLine (colsOf t) (delimOf t) (1 + i) (dataLineAt t i) mid =
      { rows := mid.rows ++ [rowAt t i]
        names := if (rowAt t i).day ≠ "" then insertName (rowAt t i).day mid.names else mid.names
        errors := mid.errors ++ [rowMsg (1 + i) (missingInRow (rowAt t i))] } := by
    unfold processLine
    rw [if_neg hblank]
    simp only [rowAt] at hkept hmiss ⊢
    rw [if_neg hkept, if_pos hmiss]
  obtain ⟨nr, ne, hshape, -, -⟩ :=
    processAll_shape (colsOf t) (delimOf t) ((dataLines t).drop (i + 1)) (1 + i + 1)
      { rows := mid.rows ++ [rowAt t i]
        names := if (rowAt t i).day ≠ "" then insertName (rowAt t i).day mid.names else mid.names
        errors := mid.errors ++ [rowMsg (1 + i) (missingInRow (rowAt t i))] }
  have hbig : processAll (colsOf t) (delimOf t) 1 (dataLines t)
        { rows := [], names := [], errors := [] }
      = { rows := (mid.rows ++ [rowAt t i]) ++ nr
          names := (dayValues nr).foldl (fun ns d => insertName d ns)
            (if (rowAt t i).day ≠ "" then insertName (rowAt t i).day mid.names else mid.names)
          errors := (mid.errors ++ [rowMsg (1 + i) (missingInRow (rowAt t i))]) ++ ne } := by
    rw [hsplit]
    show processAll (colsOf t) (delimOf t) (1 + i + 1) ((dataLines t).drop (i + 1))
      (processLine (colsOf t) (delimOf t) (1 + i) (dataLineAt t i) mid) = _
    rw [hline, hshape]
  rw [parseCsv_eq_processAll t h1 h2 h3, hbig]
  refine ⟨?_, ?_, by decide⟩
  · simp
  · simp

/-- Witness for C4: scenario A at its second data line (the Plank row
with an empty Weight cell). -/
theorem parseCsv_row_level_diagnostics_witness :
    jsTrim (dataLineAt scenarioA 1) ≠ "" ∧ missingInRow (rowAt scenarioA 1) ≠ [] ∧
    (rowMsg (1 + 1) (missingInRow (rowAt scenarioA 1)) ∈ (parseCsv scenarioA).errors ∧
     rowAt scenarioA 1 ∈ (parseCsv scenarioA).rows ∧
     parseCsv scenarioA = scenarioAResult) :=
  ⟨by decide, by decide,
   parseCsv_row_level_diagnostics scenarioA 1 (by decide) (by decide) (by decide)
     (by decide) (by decide) (by decide) (by decide)⟩

/-! ## C9: every emitted field is trimmed -/

theorem rstripWs_idem : ∀ l : List Char, rstripWs (rstripWs l) = rstripWs l := by
  intro l
  induction l with
  | nil => rfl
  | cons c rest ih =>
    show rstripWs (rstripWs (c :: rest)) = rstripWs (c :: rest)
    rw [rstripWs]
    cases h : rstripWs rest with
    | nil =>
      by_cases hc : jsWs c
      · simp [hc, rstripWs]
      · simp only [hc, if_neg, Bool.false_eq_true, ite_false]
        rw [rstripWs, rstripWs, if_neg (by simp [hc])]
    | cons r rs =>
      rw [rstripWs]
      rw [h] at ih
      have : rstripWs (r :: rs) = r :: rs := ih
      rw [this]

theorem rstripWs_head (c : Char) (rest : List Char) :
    rstripWs (c :: rest) = [] ∨ ∃ tail, rstripWs (c :: rest) = c :: tail := by
  rw [rstripWs]
  cases rstripWs rest with
  | nil =>
    by_cases hc : jsWs c
    · left; simp [hc]
    · right; exact ⟨[], by simp [hc]⟩
  | cons r rs => right; exact ⟨r :: rs, rfl⟩

theorem dropWhile_head_not {p : Char → Bool} :
    ∀ (l : List Char) (c : Char) (cs : List Char), l.dropWhile p = c :: cs → p c = false := by
  intro l
  induction l with
  | nil => intro c cs h; simp at h
  | cons a l ih =>
    intro c cs h
    rw [List.dropWhile_cons] at h
    by_cases ha : p a
    · rw [if_pos ha] at h
      exact ih c cs h
    · rw [if_neg ha] at h
      cases h
      simpa using ha

theorem jsTrimChars_idem (l : List Char) : jsTrimChars (jsTrimChars l) = jsTrimChars l := by
  show jsTrimChars (rstripWs (l.dropWhile jsWs)) = rstripWs (l.dropWhile jsWs)
  have hdrop : (rstripWs (l.dropWhile jsWs)).dropWhile jsWs = rstripWs (l.dropWhile jsWs) := by
    cases hm : l.dropWhile jsWs with
    | nil => rfl
    | cons c rest =>
      have hc : jsWs c = false := dropWhile_head_not l c rest hm
      rcases rstripWs_head c rest with h | ⟨tail, h⟩
      · rw [h]; rfl
      · rw [h, List.dropWhile_cons, if_neg (by simp [hc])]
  rw [jsTrimChars, hdrop, rstripWs_idem]

theorem jsTrim_idem (s : String) : jsTrim (jsTrim s) = jsTrim s := by
  show String.mk (jsTrimChars (String.mk (jsTrimChars s.data)).data) = _
  rw [show (String.mk (jsTrimChars s.data)).data = jsTrimChars s.data from rfl,
    jsTrimChars_idem]
  rfl

theorem getCell_trimmed {values : List String} (idx : Option Nat)
    (h : ∀ v ∈ values, jsTrim v = v) : jsTrim (getCell values idx) = getCell values idx := by
  cases idx with
  | none => rfl
  | some i =>
    show jsTrim (values.getD i "") = values.getD i ""
    by_cases hi : i < values.length
    · rw [List.getD_eq_getElem _ _ hi]
      exact h _ (List.getElem_mem hi)
    · rw [List.getD_eq_default _ _ (by omega)]
      decide

theorem lineValues_trimmed (delim : Char) (raw : String) :
    ∀ v ∈ lineValues delim raw, jsTrim v = v := by
  intro v hv
  obtain ⟨u, _, rfl⟩ := List.mem_map.1 hv
  exact jsTrim_idem u

theorem buildRow_trimmed (cols : ColIdx) (values : List String)
    (h : ∀ v ∈ values, jsTrim v = v) : isTrimmedRow (buildRow cols values) :=
  ⟨getCell_trimmed _ h, getCell_trimmed _ h, getCell_trimmed _ h, getCell_trimmed _ h,
   getCell_trimmed _ h, getCell_trimmed _ h, getCell_trimmed _ h, getCell_trimmed _ h,
   getCell_trimmed _ h, getCell_trimmed _ h⟩

/-- C9: every canonical field of every emitted row is trimmed of
leading and trailing whitespace (each tokenized cell is trimmed before
row assembly), so every session name carries no surrounding whitespace
either. -/
theorem parseCsv_fields_trimmed (t : String) :
    (∀ row ∈ (parseCsv t).rows, isTrimmedRow row) ∧
    (∀ name ∈ (parseCsv t).sessionNames, jsTrim name = name) := by
  by_cases h1 : jsTrim t = ""
  · constructor <;> intro x hx <;> rw [parseCsv, if_pos h1] at hx <;> simp at hx
  by_cases h2 : (rawLines t).length < 2
  · constructor <;> intro x hx <;> rw [parseCsv, if_neg h1, if_pos h2] at hx <;> simp at hx
  by_cases h3 : missingRequired (colsOf t) ≠ []
  · constructor <;> intro x hx <;> rw [parseCsv, if_neg h1, if_neg h2, if_pos h3] at hx <;>
      simp at hx
  have h3' : missingRequired (colsOf t) = [] := not_not.1 h3
  obtain ⟨nr, ne, hshape, -, hrows⟩ :=
    processAll_shape (colsOf t) (delimOf t) (dataLines t) 1 { rows := [], names := [], errors := [] }
  have hp := parseCsv_eq_processAll t h1 h2 h3'
  rw [hshape] at hp
  constructor
  · intro row hrow
    rw [hp] at hrow
    simp only [List.nil_append] at hrow
    obtain ⟨raw, rfl⟩ := hrows row hrow
    exact buildRow_trimmed _ _ (lineValues_trimmed _ _)
  · intro name hname
    rw [hp] at hname
    have hmem := (sortStrings_perm _).mem_iff.1 hname
    rcases mem_foldl_insertName _ [] name hmem with h | h
    · simp at h
    · obtain ⟨row, hrowm, heq⟩ := List.mem_filterMap.1 h
      by_cases hday : row.day = ""
      · rw [if_pos hday] at heq; simp at heq
      · rw [if_neg hday] at heq
        obtain ⟨raw, rfl⟩ := hrows row hrowm
        have := (buildRow_trimmed (colsOf t) (lineValues (delimOf t) raw)
          (lineValues_trimmed _ _)).1
        rw [Option.some_inj] at heq
        rw [← heq]
        exact this

/-- Witness for C9 at scenario A (its `Day` cells carry no padding after
trimming even though values pass through tokenization). -/
theorem parseCsv_fields_trimmed_witness :
    isTrimmedRow (mkRow "Day 1" "Plank" "3" "60s" "") ∧
    jsTrim "Day 1" = "Day 1" :=
  ⟨(parseCsv_fields_trimmed scenarioA).1 (mkRow "Day 1" "Plank" "3" "60s" "") (by decide),
   (parseCsv_fields_trimmed scenarioA).2 "Day 1" (by decide)⟩

/-! ## C10: blank data lines give an empty, diagnostic-free result -/

theorem splitLF_ne_nil : ∀ l : List Char, splitLF l ≠ [] := by
  intro l
  cases l with
  | nil => simp [splitLF]
  | cons c rest =>
    rw [splitLF]
    by_cases h : c = '\n'
    · simp [h]
    · rw [if_neg h]
      cases splitLF rest <;> simp

theorem splitLF_length : ∀ l : List Char, (splitLF l).length = l.count '\n' + 1 := by
  intro l
  induction l with
  | nil => rfl
  | cons c rest ih =>
    rw [splitLF]
    by_cases h : c = '\n'
    · rw [if_pos h, h]
      simp only [List.length_cons, ih, List.count_cons]
      simp
    · rw [if_neg h]
      cases hs : splitLF rest with
      | nil => exact absurd hs (splitLF_ne_nil rest)
      | cons a as =>
        rw [hs] at ih
        simp only [List.length_cons] at ih ⊢
        rw [ih, List.count_cons]
        simp [h]

theorem mem_LF_stripLeadingBOM (l : List Char) :
    '\n' ∈ stripLeadingBOM l ↔ '\n' ∈ l := by
  cases l with
  | nil => simp [stripLeadingBOM]
  | cons c rest =>
    rw [stripLeadingBOM]
    by_cases h : c.toNat = 0xfeff
    · rw [if_pos h]
      have hc : c ≠ '\n' := by
        intro e
        rw [e] at h
        exact absurd h (by decide)
      simp [List.mem_cons, Ne.symm hc]
    · rw [if_neg h]

/-- The fewer-than-two-lines guard fires exactly when the text has no
line feed. -/
theorem rawLines_short_iff (t : String) : (rawLines t).length < 2 ↔ '\n' ∉ t.data := by
  rw [rawLines, docChars, splitLF_length]
  constructor
  · intro h
    have : (stripLeadingBOM t.data).count '\n' = 0 := by omega
    rw [← mem_LF_stripLeadingBOM]
    exact List.count_eq_zero.1 this
  · intro h
    have : (stripLeadingBOM t.data).count '\n' = 0 :=
      List.count_eq_zero.2 (fun hm => h ((mem_LF_stripLeadingBOM t.data).1 hm))
    omega

/-- C10: a document that passes the emptiness guard, contains a line
feed, resolves all required headers, and whose data lines are all blank
or whitespace-only parses to zero rows, zero session names and zero
diagnostics; and the fewer-than-two-lines failure triggers exactly when
the text has no line feed at all. -/
theorem parseCsv_blank_data_lines (t : String) :
    (jsTrim t ≠ "" → '\n' ∈ t.data → missingRequired (colsOf t) = [] →
      (∀ raw ∈ dataLines t, jsTrim raw = "") →
      parseCsv t = { rows := [], sessionNames := [], errors := [] }) ∧
    ((rawLines t).length < 2 ↔ '\n' ∉ t.data) := by
  refine ⟨?_, rawLines_short_iff t⟩
  intro h1 hlf h3 hblank
  have h2 : ¬(rawLines t).length < 2 := by
    rw [rawLines_short_iff]
    simp [hlf]
  rw [parseCsv_eq_processAll t h1 h2 h3,
    processAll_blank (colsOf t) (delimOf t) (dataLines t) 1 _ hblank]
  rfl

/-- Witness for C10 at a valid header followed only by a newline. -/
theorem parseCsv_blank_data_lines_witness :
    jsTrim c10Doc ≠ "" ∧ '\n' ∈ c10Doc.data ∧ missingRequired (colsOf c10Doc) = [] ∧
    parseCsv c10Doc = { rows := [], sessionNames := [], errors := [] } :=
  ⟨by decide, by decide, by decide,
   (parseCsv_blank_data_lines c10Doc).1 (by decide) (by decide) (by decide) (by decide)⟩

/-! ## C3: tokenizer round trip (corrected) -/

/-- Copying an unquoted field: characters that are not a quote, the
delimiter, or a carriage return pass into the accumulator verbatim. -/
theorem splitAux_copy_plain (delim : Char) :
    ∀ (f : List Char), (∀ c ∈ f, c ≠ '"' ∧ c ≠ delim ∧ c ≠ '\r') →
    ∀ (s cur : List Char) (out : List (List Char)),
    splitCsvLineAux delim (f ++ s) false cur out
      = splitCsvLineAux delim s false (cur ++ f) out := by
  intro f
  induction f with
  | nil => intro _ s cur out; simp
  | cons c f' ih =>
    intro h s cur out
    obtain ⟨hq, hd, hr⟩ := h c (List.mem_cons_self c f')
    have hstep : splitCsvLineAux delim ((c :: f') ++ s) false cur out
        = splitCsvLineAux delim (f' ++ s) false (cur ++ [c]) out := by
      show splitCsvLineAux delim (c :: (f' ++ s)) false cur out = _
      simp only [splitCsvLineAux]
      rw [if_neg hq, if_neg hd, if_neg hr]
    rw [hstep, ih (fun x hx => h x (List.mem_cons_of_mem c hx)) s (cur ++ [c]) out,
      List.append_assoc]
    rfl

/-- Copying a quoted field body: inside quotes every character is
copied, a doubled quote decodes to one quote, and the closing quote
returns to unquoted mode. -/
theorem splitAux_copy_quoted (delim : Char) :
    ∀ (f s cur : List Char) (out : List (List Char)), headQuote s = false →
    splitCsvLineAux delim (escapeQuotes f ++ ('"' :: s)) true cur out
      = splitCsvLineAux delim s false (cur ++ f) out := by
  intro f
  induction f with
  | nil =>
    intro s cur out hs
    show splitCsvLineAux delim ('"' :: s) true cur out = splitCsvLineAux delim s false (cur ++ []) out
    rw [List.append_nil]
    cases s with
    | nil => simp [splitCsvLineAux]
    | cons a s' =>
      have ha : a ≠ '"' := by simpa [headQuote] using hs
      simp [splitCsvLineAux, ha]
  | cons c f' ih =>
    intro s cur out hs
    by_cases hc : c = '"'
    · subst hc
      have hesc : escapeQuotes ('"' :: f') ++ ('"' :: s)
          = '"' :: '"' :: (escapeQuotes f' ++ ('"' :: s)) := by
        simp [escapeQuotes]
      rw [hesc]
      have hstep : splitCsvLineAux delim ('"' :: '"' :: (escapeQuotes f' ++ ('"' :: s))) true cur out
          = splitCsvLineAux delim (escapeQuotes f' ++ ('"' :: s)) true (cur ++ ['"']) out := by
        simp [splitCsvLineAux]
      rw [hstep, ih s (cur ++ ['"']) out hs, List.append_assoc]
      rfl
    · have hesc : escapeQuotes (c :: f') ++ ('"' :: s)
          = c :: (escapeQuotes f' ++ ('"' :: s)) := by
        simp [escapeQuotes, hc]
      rw [hesc]
      cases htail : escapeQuotes f' ++ ('"' :: s) with
      | nil => simp at htail
      | cons a rest =>
        have hstep : splitCsvLineAux delim (c :: a :: rest) true cur out
            = splitCsvLineAux delim (a :: rest) true (cur ++ [c]) out := by
          simp [splitCsvLineAux, hc]
        rw [hstep, ← htail, ih s (cur ++ [c]) out hs, List.append_assoc]
        rfl

/-- Consuming one encoded field from the unquoted state deposits the
original field in the accumulator and leaves the rest of the line. -/
theorem splitAux_consume_encode (delim : Char) (hdelim : delim ≠ '"')
    (f : List Char) (hcr : '\r' ∉ f)
    (s cur : List Char) (out : List (List Char)) (hs : headQuote s = false) :
    splitCsvLineAux delim (encodeField delim f ++ s) false cur out
      = splitCsvLineAux delim s false (cur ++ f) out := by
  by_cases hq : needsQuote delim f
  · rw [encodeField, if_pos hq]
    have hshape : ('"' :: (escapeQuotes f ++ ['"'])) ++ s
        = '"' :: (escapeQuotes f ++ ('"' :: s)) := by simp
    rw [hshape]
    have hstep : splitCsvLineAux delim ('"' :: (escapeQuotes f ++ ('"' :: s))) false cur out
        = splitCsvLineAux delim (escapeQuotes f ++ ('"' :: s)) true cur out := by
      simp [splitCsvLineAux]
    rw [hstep]
    exact splitAux_copy_quoted delim f s cur out hs
  · rw [encodeField, if_neg hq]
    apply splitAux_copy_plain
    intro c hcmem
    refine ⟨?_, ?_, ?_⟩
    · intro e
      subst e
      refine hq ?_
      simp only [needsQuote, Bool.or_eq_true]
      exact Or.inr (List.elem_eq_true_of_mem hcmem)
    · intro e
      subst e
      refine hq ?_
      simp only [needsQuote, Bool.or_eq_true]
      exact Or.inl (List.elem_eq_true_of_mem hcmem)
    · intro e; subst e
      exact hcr hcmem

/-- Tokenizing an encoded nonempty field sequence reproduces it. -/
theorem splitAux_join (delim : Char) (hdelim : delim ≠ '"') :
    ∀ (fs : List (List Char)) (f : List Char), '\r' ∉ f → (∀ g ∈ fs, '\r' ∉ g) →
    ∀ (cur : List Char) (out : List (List Char)),
    splitCsvLineAux delim (joinFields delim (f :: fs)) false cur out
      = out ++ (cur ++ f) :: fs := by
  intro fs
  induction fs with
  | nil =>
    intro f hf _ cur out
    show splitCsvLineAux delim (encodeField delim f) false cur out = out ++ [cur ++ f]
    have h := splitAux_consume_encode delim hdelim f hf [] cur out rfl
    rw [List.append_nil] at h
    rw [h]
    rfl
  | cons g gs ih =>
    intro f hf hg cur out
    show splitCsvLineAux delim
        (encodeField delim f ++ (delim :: joinFields delim (g :: gs))) false cur out = _
    have hhq : headQuote (delim :: joinFields delim (g :: gs)) = false := by
      simp [headQuote, hdelim]
    rw [splitAux_consume_encode delim hdelim f hf _ cur out hhq]
    have hstep : splitCsvLineAux delim (delim :: joinFields delim (g :: gs)) false (cur ++ f) out
        = splitCsvLineAux delim (joinFields delim (g :: gs)) false [] (out ++ [cur ++ f]) := by
      simp [splitCsvLineAux, hdelim]
    rw [hstep, ih g (hg g (List.mem_cons_self g gs)) (fun x hx => hg x (List.mem_cons_of_mem g hx))
      [] (out ++ [cur ++ f])]
    simp

/-- C3 counterexample: the round trip fails as stated — a field
containing a bare carriage return (not quoted, since it contains
neither the delimiter nor a quote) loses the `\r`, and the empty field
sequence comes back as one empty field. -/
theorem splitCsvLine_roundtrip_counterexample :
    splitCsvLine (String.mk (joinFields ',' ["a\rb".data])) ',' ≠ ["a\rb"] ∧
    splitCsvLine (String.mk (joinFields ',' [])) ',' ≠ ([] : List String) := by
  refine ⟨by decide, by decide⟩

/-- C3 (amended): for every nonempty sequence of fields none of which
contains a carriage return, tokenizing the line built by joining the
fields with the delimiter (quoting fields that contain the delimiter or
a quote, doubling internal quotes) yields exactly the original fields. -/
theorem splitCsvLine_roundtrip (delim : Char) (hdelim : delim = ',' ∨ delim = '\t')
    (fields : List (List Char)) (hne : fields ≠ [])
    (hcr : ∀ f ∈ fields, '\r' ∉ f) :
    splitCsvLine (String.mk (joinFields delim fields)) delim = fields.map String.mk := by
  have hdq : delim ≠ '"' := by rcases hdelim with h | h <;> subst h <;> decide
  cases fields with
  | nil => exact absurd rfl hne
  | cons f fs =>
    show (splitCsvLineAux delim (joinFields delim (f :: fs)) false [] []).map String.mk = _
    rw [splitAux_join delim hdq fs f (hcr f (List.mem_cons_self f fs))
      (fun g hgmem => hcr g (List.mem_cons_of_mem f hgmem)) [] []]
    simp

/-- Witness for the amended C3 on three fields exercising quoting,
embedded delimiters and embedded quotes. -/
theorem splitCsvLine_roundtrip_witness :
    ((',' : Char) = ',' ∨ (',' : Char) = '\t') ∧
    ([" a".data, "b,c".data, "d\"e".data] ≠ ([] : List (List Char))) ∧
    splitCsvLine (String.mk (joinFields ',' [" a".data, "b,c".data, "d\"e".data])) ','
      = ([" a".data, "b,c".data, "d\"e".data]).map String.mk :=
  ⟨Or.inl rfl, by decide,
   splitCsvLine_roundtrip ',' (Or.inl rfl) [" a".data, "b,c".data, "d\"e".data]
     (by decide) (by decide)⟩

end MotionLite
